import Mathlib

/-!
Shallow embedding of the Topcar stock application (src/app.py).

The embedded core covers the three components the specification calls
StockCatalog (route add_item), LedgerEngine (routes checkout, receive,
reverse_transaction) and JobUsageReporter (_job_usage and route job_usage),
together with the sqlite data model (tables stock and transactions).

Modelling conventions:
* The sqlite database is a pure value of type State: the stock table is a
  list of StockItem in insertion order, the transactions table a list of
  Transaction in insertion order, and the two AUTOINCREMENT counters are
  carried explicitly (they start at 1, as sqlite row ids do).
* Python ints and sqlite INTEGER columns are Int.
* Python float money values (unit_price columns, line values, totals) are
  modelled as exact fractions (structure Money below) so that every money
  computation of the code is represented exactly and every concrete run can
  be checked by kernel evaluation.  Mathlib's Rat does not kernel-evaluate
  (its normalisation runs Nat.gcd, a well-founded recursion), hence the
  bespoke fraction type.  Python's round(x, 2) rounds ties to even; round2
  below rounds ties up.  The two agree except on exact half-cent ties, and
  the same round2 is used both for the embedded code and in the statements
  of the claims, so no claim depends on the tie rule.
* Python str.strip() is pyStrip, which removes ASCII whitespace from both
  ends (String.trim is not used because it does not kernel-evaluate).
* The created_at timestamp column is real time and is omitted: no claim in
  scope mentions it.  The legacy is_reversed column is kept (always written
  as 0, never read), as in the code.
* HTTP JSON error responses are mapped to the error taxonomy of the spec:
  400 "item_id and quantity must be > 0" / "job_no is required" /
  "transaction_id must be > 0" / "name is required" / "values cannot be
  negative" are ApiError.invalidInput; 404 responses are ApiError.notFound;
  400 "not enough stock" is ApiError.insufficientStock; 400 "cannot reverse
  a reverse transaction" / "transaction already reversed" / "reversal would
  make stock negative" are ApiError.invalidReversal; 400 "item for this
  transaction no longer exists" is ApiError.missingItem.
* Each handler is a pure function State → Result ApiError (State × resp).
  A failure returns no state at all: the sqlite unit of work of a failed
  operation commits nothing, so "every failure leaves the store unchanged"
  holds by construction in the embedding (atomicity itself is out of scope).
* StockItem carries one ghost field, createdQty: the value of the quantity
  column at INSERT time.  It is not a separate database column, is written
  only by add_item and is never read by any operation; it exists solely to
  state the ledger invariant "quantity = creation quantity + sum of applied
  change_qty".
-/

namespace Topcar

/-- Result of a request handler: either an error response or a success
payload.  Isomorphic to Except, redefined so that DecidableEq can be
derived and concrete runs can be checked with decide. -/
inductive Result (ε : Type) (α : Type) where
  | error : ε → Result ε α
  | ok : α → Result ε α
deriving DecidableEq, Repr

/-- Error taxonomy of the spec, as produced by the embedded handlers. -/
inductive ApiError where
  | invalidInput
  | notFound
  | insufficientStock
  | invalidReversal
  | missingItem
deriving DecidableEq, Repr

/-- Exact fraction num/den modelling a Python float money value.  All money
values the code constructs have positive den.  Operations below mirror the
code's float arithmetic exactly on fractions. -/
structure Money where
  num : Int
  den : Int
deriving DecidableEq, Repr

/-- Embeds an integer money amount. -/
def Money.ofInt (n : Int) : Money := ⟨n, 1⟩

/-- Fraction addition (used for the running float total of _job_usage). -/
def Money.add (x y : Money) : Money := ⟨x.num * y.den + y.num * x.den, x.den * y.den⟩

/-- Multiplication of a money value by an integer quantity. -/
def Money.mulInt (k : Int) (x : Money) : Money := ⟨k * x.num, x.den⟩

/-- Negativity test for a money value (unit_price < 0 in add_item); correct
for every nonzero den whatever its sign. -/
def Money.isNegB (x : Money) : Bool := decide (x.num * x.den < 0)

/-- Sum of a list of money values starting from 0.0, as the running total
loop of _job_usage does. -/
def Money.sum (l : List Money) : Money := l.foldl Money.add ⟨0, 1⟩

/-- Python round(x, 2): round to 2 decimal places.  For x = a/b with b > 0
this is fdiv (200 a + b) (2 b) hundredths, i.e. floor(100 x + 1/2) / 100
(ties rounded up; see the header note on the tie rule). -/
def round2 (x : Money) : Money := ⟨Int.fdiv (2 * (100 * x.num) + x.den) (2 * x.den), 100⟩

/-- ASCII whitespace, the characters Python str.strip() removes (restricted
to the ASCII range; no claim uses non-ASCII whitespace). -/
def isSpaceChar (c : Char) : Bool :=
  c.toNat = 32 || c.toNat = 9 || c.toNat = 10 || c.toNat = 13 || c.toNat = 11 || c.toNat = 12

/-- Python str.strip(): drop whitespace from both ends. -/
def pyStrip (s : String) : String :=
  ⟨((s.data.dropWhile isSpaceChar).reverse.dropWhile isSpaceChar).reverse⟩

/-- Lexicographic order on character lists by code point, the order sqlite's
BINARY collation induces on UTF-8 text (byte order equals code point
order). -/
def charListLe : List Char → List Char → Bool
  | [], _ => true
  | _ :: _, [] => false
  | a :: as, b :: bs =>
    if a.toNat < b.toNat then true
    else if b.toNat < a.toNat then false
    else charListLe as bs

/-- Order on strings used by ORDER BY name. -/
def strLe (a b : String) : Bool := charListLe a.data b.data

/-- Insert into a list sorted by le (stable, kernel-evaluable). -/
def insertLe {α : Type} (le : α → α → Bool) (a : α) : List α → List α
  | [] => [a]
  | b :: l => if le a b then a :: b :: l else b :: insertLe le a l

/-- Insertion sort by le, used to model ORDER BY. -/
def sortLe {α : Type} (le : α → α → Bool) : List α → List α
  | [] => []
  | a :: l => insertLe le a (sortLe le l)

/-- One row of the stock table (plus the ghost createdQty field, see the
header). -/
structure StockItem where
  id : Int
  name : String
  quantity : Int
  min_level : Int
  unit_price : Money
  supplier : String
  reorder_qty : Int
  createdQty : Int
deriving DecidableEq, Repr

/-- Action column of the transactions table. -/
inductive Action where
  | checkout
  | receive
  | reverse
deriving DecidableEq, Repr

/-- One row of the transactions table (created_at omitted, see header). -/
structure Transaction where
  id : Int
  item_id : Int
  change_qty : Int
  job_no : Option String
  action : Action
  unit_price : Money
  reversed_from : Option Int
  is_reversed : Int
deriving DecidableEq, Repr

/-- The whole database. -/
structure State where
  items : List StockItem
  transactions : List Transaction
  nextItemId : Int
  nextTxId : Int
deriving DecidableEq, Repr

/-- Fresh database right after setup(). -/
def State.empty : State := ⟨[], [], 1, 1⟩

/-- SELECT * FROM stock WHERE id=? (id is the primary key, so at most one
row; find? picks the first, which is the only one in well-formed states). -/
def findItem (s : State) (iid : Int) : Option StockItem :=
  s.items.find? (fun i => i.id == iid)

/-- SELECT * FROM transactions WHERE id=?. -/
def findTx (s : State) (tid : Int) : Option Transaction :=
  s.transactions.find? (fun t => t.id == tid)

/-- Effect of UPDATE stock SET quantity=? WHERE id=? on one row. -/
def updAt (iid nq : Int) (i : StockItem) : StockItem :=
  if i.id = iid then { i with quantity := nq } else i

/-- UPDATE stock SET quantity=? WHERE id=?. -/
def updateQty (items : List StockItem) (iid : Int) (nq : Int) : List StockItem :=
  items.map (updAt iid nq)

/-- The stock row INSERTed by add_item (createdQty is the ghost copy of the
initial quantity, see the header). -/
def newStockItem (s : State) (name : String) (quantity min_level : Int)
    (unit_price : Money) (supplier : String) (reorder_qty : Int) : StockItem :=
  { id := s.nextItemId, name := name, quantity := quantity, min_level := min_level,
    unit_price := unit_price, supplier := supplier, reorder_qty := reorder_qty,
    createdQty := quantity }

/-- The transaction row INSERTed by checkout, receive and
reverse_transaction (is_reversed is always written as 0). -/
def ledgerTx (s : State) (iid dq : Int) (job : Option String) (act : Action)
    (up : Money) (rfrom : Option Int) : Transaction :=
  { id := s.nextTxId, item_id := iid, change_qty := dq, job_no := job, action := act,
    unit_price := up, reversed_from := rfrom, is_reversed := 0 }

/-- The UPDATE quantity plus INSERT transaction pair every successful ledger
operation commits. -/
def applyLedger (s : State) (iid nq : Int) (tx : Transaction) : State :=
  { s with items := updateQty s.items iid nq,
           transactions := s.transactions ++ [tx],
           nextTxId := s.nextTxId + 1 }

/-- Success payload of POST /stock (the route returns only the message
"Item added" with status 201; in particular the new row id is not part of
the response). -/
def addItemMessage : String := "Item added"

/-- POST /stock (add_item, src/app.py lines 474-498).  Strips name and
supplier, rejects an empty stripped name and any negative numeric field,
then inserts the new stock row with the next AUTOINCREMENT id. -/
def add_item (s : State) (name : String) (quantity min_level : Int)
    (unit_price : Money) (supplier : String) (reorder_qty : Int) :
    Result ApiError (State × String) :=
  let name := pyStrip name
  let supplier := pyStrip supplier
  if name = "" then .error .invalidInput
  else if quantity < 0 ∨ min_level < 0 ∨ Money.isNegB unit_price ∨ reorder_qty < 0 then
    .error .invalidInput
  else
    let item := newStockItem s name quantity min_level unit_price supplier reorder_qty
    .ok ({ s with items := s.items ++ [item], nextItemId := s.nextItemId + 1 },
      addItemMessage)

/-- Success payload of POST /checkout. -/
structure CheckoutResp where
  new_quantity : Int
  low_stock_alert : Bool
  unit_price_at_time : Money
  line_value : Money
deriving DecidableEq, Repr

/-- POST /checkout (checkout, src/app.py lines 501-542).  Validates
item_id > 0, qty > 0 and a nonempty stripped job_no, looks the item up,
rejects qty above the available quantity, then decrements the quantity and
appends the checkout transaction with change_qty = -qty and the item's
current unit_price as snapshot. -/
def checkout (s : State) (item_id qty : Int) (job_no : String) :
    Result ApiError (State × CheckoutResp) :=
  let job_no := pyStrip job_no
  if item_id ≤ 0 ∨ qty ≤ 0 then .error .invalidInput
  else if job_no = "" then .error .invalidInput
  else
    match findItem s item_id with
    | none => .error .notFound
    | some item =>
      if item.quantity < qty then .error .insufficientStock
      else
        let new_qty := item.quantity - qty
        let unit_price := item.unit_price
        let tx := ledgerTx s item_id (-qty) (some job_no) .checkout unit_price none
        let resp : CheckoutResp :=
          { new_quantity := new_qty, low_stock_alert := decide (new_qty ≤ item.min_level),
            unit_price_at_time := unit_price,
            line_value := round2 (Money.mulInt qty unit_price) }
        .ok (applyLedger s item_id new_qty tx, resp)

/-- Success payload of POST /receive. -/
structure ReceiveResp where
  new_quantity : Int
  unit_price_at_time : Money
deriving DecidableEq, Repr

/-- POST /receive (receive, src/app.py lines 545-576).  Validates
item_id > 0 and qty > 0, looks the item up, then increments the quantity
and appends the receive transaction with change_qty = +qty, no job_no and
the current unit_price as snapshot. -/
def receive (s : State) (item_id qty : Int) :
    Result ApiError (State × ReceiveResp) :=
  if item_id ≤ 0 ∨ qty ≤ 0 then .error .invalidInput
  else
    match findItem s item_id with
    | none => .error .notFound
    | some item =>
      let new_qty := item.quantity + qty
      let unit_price := item.unit_price
      let tx := ledgerTx s item_id qty none .receive unit_price none
      .ok (applyLedger s item_id new_qty tx,
        { new_quantity := new_qty, unit_price_at_time := unit_price })

/-- Success payload of POST /reverse. -/
structure ReverseResp where
  item_id : Int
  new_quantity : Int
  reversed_from : Int
deriving DecidableEq, Repr

/-- POST /reverse (reverse_transaction, src/app.py lines 591-654).
Validates transaction_id > 0, looks the transaction up (404 if absent),
rejects reversing a reverse row, rejects a second reversal of the same row
(some row already has reversed_from = transaction_id), looks the item up,
rejects if applying the negated change_qty would drive the quantity
negative, then applies the negated delta and appends the linked reverse
row, whose unit_price is copied verbatim from the reversed transaction. -/
def reverse_transaction (s : State) (transaction_id : Int) :
    Result ApiError (State × ReverseResp) :=
  if transaction_id ≤ 0 then .error .invalidInput
  else
    match findTx s transaction_id with
    | none => .error .notFound
    | some tx =>
      if tx.action = .reverse then .error .invalidReversal
      else if s.transactions.any
          (fun t => t.action == .reverse && t.reversed_from == some transaction_id) then
        .error .invalidReversal
      else
        match findItem s tx.item_id with
        | none => .error .missingItem
        | some item =>
          let reverse_change := -tx.change_qty
          let new_qty := item.quantity + reverse_change
          if new_qty < 0 then .error .invalidReversal
          else
            let rv := ledgerTx s tx.item_id reverse_change tx.job_no .reverse
              tx.unit_price (some transaction_id)
            .ok (applyLedger s tx.item_id new_qty rv,
              { item_id := tx.item_id, new_quantity := new_qty,
                reversed_from := transaction_id })

/-- WHERE t.job_no = ? AND t.action IN ('checkout', 'reverse') of the
_job_usage query.  A NULL job_no matches no value, as in SQL. -/
def txMatches (job : String) (t : Transaction) : Bool :=
  t.job_no == some job && (t.action == Action.checkout || t.action == Action.reverse)

/-- The GROUP BY s.id, s.name, t.unit_price keys of the _job_usage query:
one key per distinct (item id, item name, snapshot price) triple among the
matching transactions; the inner join drops a transaction whose item row is
missing.  The name component is determined by the id component because both
come from the same stock lookup. -/
def usageKeys (s : State) (job : String) : List (Int × String × Money) :=
  ((s.transactions.filter (txMatches job)).filterMap
    (fun t => (findItem s t.item_id).map (fun i => (t.item_id, i.name, t.unit_price)))).dedup

/-- ORDER BY s.name on the group keys. -/
def keyLe (a b : Int × String × Money) : Bool := strLe a.2.1 b.2.1

/-- SUM(t.change_qty) of one group of the _job_usage query. -/
def groupSum (s : State) (job : String) (iid : Int) (up : Money) : Int :=
  (((s.transactions.filter (txMatches job)).filter
      (fun t => t.item_id == iid && t.unit_price == up)).map (fun t => t.change_qty)).sum

/-- One report row of _job_usage: net_qty = -sum_change and
line_total = round(net_qty * unit_price, 2). -/
structure UsageRow where
  item_id : Int
  name : String
  net_qty : Int
  unit_price : Money
  line_total : Money
deriving DecidableEq, Repr

/-- Builds the report row of one group key. -/
def mkRow (s : State) (job : String) (k : Int × String × Money) : UsageRow :=
  { item_id := k.1, name := k.2.1, net_qty := -(groupSum s job k.1 k.2.2),
    unit_price := k.2.2,
    line_total := round2 (Money.mulInt (-(groupSum s job k.1 k.2.2)) k.2.2) }

/-- The items list computed by _job_usage (src/app.py lines 660-704). -/
def jobUsageRows (s : State) (job : String) : List UsageRow :=
  (sortLe keyLe (usageKeys s job)).map (mkRow s job)

/-- The total computed by _job_usage: the rounded sum of the line totals. -/
def jobUsageTotal (s : State) (job : String) : Money :=
  round2 (Money.sum ((jobUsageRows s job).map (fun r => r.line_total)))

/-- def _job_usage(conn, job_no) itself: the (items, total) pair. -/
def jobUsagePair (s : State) (job : String) : List UsageRow × Money :=
  (jobUsageRows s job, jobUsageTotal s job)

/-- Success payload of GET /job/(job_no)/usage (generated_at, a wall-clock
timestamp, is omitted; no claim mentions it). -/
structure UsageResp where
  job_no : String
  items : List UsageRow
  total_value : Money
deriving DecidableEq, Repr

/-- GET /job/(job_no)/usage (job_usage, src/app.py lines 707-727).  Strips
job_no, rejects an empty stripped job_no, runs _job_usage and returns 404
when the items list is empty. -/
def job_usage (s : State) (job_no : String) : Result ApiError UsageResp :=
  let job_no := pyStrip job_no
  if job_no = "" then .error .invalidInput
  else if (jobUsageRows s job_no).isEmpty then .error .notFound
  else .ok { job_no := job_no, items := jobUsageRows s job_no,
             total_value := jobUsageTotal s job_no }

/-- Quantity of the stock row with the given id, if any. -/
def itemQty (s : State) (iid : Int) : Option Int :=
  (findItem s iid).map (fun i => i.quantity)

/-- States reachable from the fresh database by any sequence of successful
create, checkout, receive and reverse operations. -/
inductive Reachable : State → Prop where
  | empty : Reachable State.empty
  | create {s s' : State} {n : String} {q ml : Int} {up : Money} {sup : String}
      {rq : Int} {m : String} :
      Reachable s → add_item s n q ml up sup rq = .ok (s', m) → Reachable s'
  | checkoutStep {s s' : State} {iid qty : Int} {job : String} {r : CheckoutResp} :
      Reachable s → checkout s iid qty job = .ok (s', r) → Reachable s'
  | receiveStep {s s' : State} {iid qty : Int} {r : ReceiveResp} :
      Reachable s → receive s iid qty = .ok (s', r) → Reachable s'
  | reverseStep {s s' : State} {tid : Int} {r : ReverseResp} :
      Reachable s → reverse_transaction s tid = .ok (s', r) → Reachable s'

/-- The inductive invariant of reachable databases: nonnegative stock,
well-formed primary keys and AUTOINCREMENT counters, foreign keys into the
stock table, reversal back-references naming only existing rows, and the
ledger equation (invariant 1 of the spec). -/
structure Inv (s : State) : Prop where
  qty_nonneg : ∀ i ∈ s.items, 0 ≤ i.quantity
  item_id_pos : ∀ i ∈ s.items, 0 < i.id
  item_id_lt : ∀ i ∈ s.items, i.id < s.nextItemId
  item_ids_nodup : s.items.Pairwise (fun a b => a.id ≠ b.id)
  tx_id_pos : ∀ t ∈ s.transactions, 0 < t.id
  tx_id_lt : ∀ t ∈ s.transactions, t.id < s.nextTxId
  tx_item_exists : ∀ t ∈ s.transactions, ∃ i ∈ s.items, i.id = t.item_id
  rev_lt : ∀ t ∈ s.transactions, ∀ rid, t.reversed_from = some rid → rid < s.nextTxId
  ledger : ∀ i ∈ s.items,
    i.quantity = i.createdQty +
      ((s.transactions.filter (fun t => t.item_id == i.id)).map
        (fun t => t.change_qty)).sum
  one_le_nextItemId : 1 ≤ s.nextItemId
  one_le_nextTxId : 1 ≤ s.nextTxId

/-- Frame of a successful ledger operation on the item with id target: the
stock table keeps the same rows in the same order with only the target
row's quantity possibly changed, and the transaction log grows by exactly
one appended row. -/
def Frame (s s' : State) (target : Int) : Prop :=
  s'.items.length = s.items.length ∧
  List.Forall₂
    (fun i i' => i'.id = i.id ∧ i'.name = i.name ∧ i'.min_level = i.min_level ∧
      i'.unit_price = i.unit_price ∧ i'.supplier = i.supplier ∧
      i'.reorder_qty = i.reorder_qty ∧ i'.createdQty = i.createdQty ∧
      (i.id ≠ target → i' = i))
    s.items s'.items ∧
  ∃ tx, s'.transactions = s.transactions ++ [tx]


/-- Concrete stock row used to exercise the theorems on explicit runs. -/
def witItem : StockItem :=
  { id := 1, name := "Widget", quantity := 10, min_level := 2,
    unit_price := Money.ofInt 5, supplier := "ACME", reorder_qty := 3, createdQty := 10 }

/-- Database after create(Widget, 10, 2, 5, ACME, 3) on the fresh database. -/
def witS1 : State :=
  { items := [witItem], transactions := [], nextItemId := 2, nextTxId := 1 }

/-- The checkout row written by checkout(1, 4, J1) on witS1. -/
def witT1 : Transaction :=
  { id := 1, item_id := 1, change_qty := -4, job_no := some "J1",
    action := .checkout, unit_price := Money.ofInt 5, reversed_from := none,
    is_reversed := 0 }

/-- Database after checkout(1, 4, J1) on witS1. -/
def witS2 : State :=
  { items := [{ witItem with quantity := 6 }], transactions := [witT1],
    nextItemId := 2, nextTxId := 2 }

/-- The reverse row written by reverse(1) on witS2. -/
def witRV : Transaction :=
  { id := 2, item_id := 1, change_qty := 4, job_no := some "J1",
    action := .reverse, unit_price := Money.ofInt 5, reversed_from := some 1,
    is_reversed := 0 }

/-- Database after reverse(1) on witS2. -/
def witS3 : State :=
  { items := [witItem], transactions := [witT1, witRV], nextItemId := 2, nextTxId := 3 }


/-- First item created in the double-creation run of the C9 analysis. -/
def cxItemA : StockItem :=
  { id := 1, name := "A", quantity := 0, min_level := 0, unit_price := Money.ofInt 0,
    supplier := "", reorder_qty := 0, createdQty := 0 }

/-- Second item created in the double-creation run of the C9 analysis. -/
def cxItemB : StockItem :=
  { id := 2, name := "B", quantity := 0, min_level := 0, unit_price := Money.ofInt 0,
    supplier := "", reorder_qty := 0, createdQty := 0 }

/-- Database after create(A, 0, 0, 0) on the fresh database. -/
def cxSA : State :=
  { items := [cxItemA], transactions := [], nextItemId := 2, nextTxId := 1 }

/-- Database after create(B, 0, 0, 0) on cxSA. -/
def cxSB : State :=
  { items := [cxItemA, cxItemB], transactions := [], nextItemId := 3, nextTxId := 1 }


/-! Generic lemmas: the string order, the insertion sort used for ORDER BY,
and lookups over the updated stock list. -/

theorem charListLe_total : ∀ a b : List Char, charListLe a b = true ∨ charListLe b a = true
  | [], _ => Or.inl rfl
  | _ :: _, [] => Or.inr rfl
  | a :: as, b :: bs => by
    unfold charListLe
    rcases Nat.lt_trichotomy a.toNat b.toNat with h | h | h
    · simp [h]
    · have h1 : ¬ a.toNat < b.toNat := by omega
      have h2 : ¬ b.toNat < a.toNat := by omega
      simpa [h1, h2] using charListLe_total as bs
    · simp [h, Nat.lt_asymm h]

theorem charListLe_trans : ∀ a b c : List Char,
    charListLe a b = true → charListLe b c = true → charListLe a c = true
  | [], _, _, _, _ => rfl
  | _ :: _, [], _, h, _ => by simp [charListLe] at h
  | _ :: _, _ :: _, [], _, h => by simp [charListLe] at h
  | a :: as, b :: bs, c :: cs, hab, hbc => by
    unfold charListLe at hab hbc ⊢
    rcases Nat.lt_trichotomy a.toNat b.toNat with h1 | h1 | h1 <;>
      rcases Nat.lt_trichotomy b.toNat c.toNat with h2 | h2 | h2
    · simp [show a.toNat < c.toNat by omega]
    · simp [show a.toNat < c.toNat by omega]
    · simp [h2, Nat.lt_asymm h2] at hbc
    · simp [show a.toNat < c.toNat by omega]
    · have e1 : ¬ a.toNat < c.toNat := by omega
      have e2 : ¬ c.toNat < a.toNat := by omega
      simp [h1, h2, Nat.lt_irrefl, e1, e2] at hab hbc ⊢
      exact charListLe_trans as bs cs hab hbc
    · simp [h2, Nat.lt_asymm h2] at hbc
    · simp [h1, Nat.lt_asymm h1] at hab
    · simp [h1, Nat.lt_asymm h1] at hab
    · simp [h1, Nat.lt_asymm h1] at hab

theorem strLe_total (a b : String) : strLe a b = true ∨ strLe b a = true :=
  charListLe_total a.data b.data

theorem strLe_trans {a b c : String} (h1 : strLe a b = true) (h2 : strLe b c = true) :
    strLe a c = true :=
  charListLe_trans a.data b.data c.data h1 h2

theorem perm_insertLe {α : Type} (le : α → α → Bool) (a : α) :
    ∀ l : List α, (insertLe le a l).Perm (a :: l)
  | [] => List.Perm.refl _
  | b :: l => by
    unfold insertLe
    split
    · exact List.Perm.refl _
    · exact ((perm_insertLe le a l).cons b).trans (List.Perm.swap a b l)

theorem perm_sortLe {α : Type} (le : α → α → Bool) :
    ∀ l : List α, (sortLe le l).Perm l
  | [] => List.Perm.refl _
  | a :: l => (perm_insertLe le a (sortLe le l)).trans ((perm_sortLe le l).cons a)

theorem pairwise_insertLe {α : Type} {le : α → α → Bool}
    (htot : ∀ x y, le x y = true ∨ le y x = true)
    (htrans : ∀ x y z, le x y = true → le y z = true → le x z = true)
    (a : α) : ∀ {l : List α}, l.Pairwise (fun x y => le x y = true) →
      (insertLe le a l).Pairwise (fun x y => le x y = true)
  | [], _ => by simp [insertLe]
  | b :: l, hl => by
    rcases List.pairwise_cons.mp hl with ⟨hb, hl2⟩
    unfold insertLe
    split
    case isTrue hab =>
      refine List.pairwise_cons.mpr ⟨?_, hl⟩
      intro x hx
      rcases List.mem_cons.mp hx with rfl | hx
      · exact hab
      · exact htrans a b x hab (hb x hx)
    case isFalse hab =>
      have hba : le b a = true := (htot a b).resolve_left (by simpa using hab)
      refine List.pairwise_cons.mpr ⟨?_, pairwise_insertLe htot htrans a hl2⟩
      intro x hx
      rcases List.mem_cons.mp ((perm_insertLe le a l).mem_iff.mp hx) with rfl | hx
      · exact hba
      · exact hb x hx

theorem pairwise_sortLe {α : Type} {le : α → α → Bool}
    (htot : ∀ x y, le x y = true ∨ le y x = true)
    (htrans : ∀ x y z, le x y = true → le y z = true → le x z = true) :
    ∀ l : List α, (sortLe le l).Pairwise (fun x y => le x y = true)
  | [] => List.Pairwise.nil
  | a :: l => pairwise_insertLe htot htrans a (pairwise_sortLe htot htrans l)

theorem keyLe_total (a b : Int × String × Money) : keyLe a b = true ∨ keyLe b a = true :=
  strLe_total a.2.1 b.2.1

theorem keyLe_trans (a b c : Int × String × Money)
    (h1 : keyLe a b = true) (h2 : keyLe b c = true) : keyLe a c = true :=
  strLe_trans h1 h2

theorem updAt_id (tid nq : Int) (i : StockItem) : (updAt tid nq i).id = i.id := by
  unfold updAt
  split <;> rfl

theorem find?_updateQty (items : List StockItem) (tid nq iid : Int) :
    (updateQty items tid nq).find? (fun i => i.id == iid) =
      (items.find? (fun i => i.id == iid)).map (updAt tid nq) := by
  induction items with
  | nil => rfl
  | cons i l ih =>
    show (updAt tid nq i :: updateQty l tid nq).find? (fun j => j.id == iid) = _
    simp only [List.find?, updAt_id]
    by_cases hc : i.id = iid
    · rw [show (i.id == iid) = true from beq_iff_eq.mpr hc]
      rfl
    · rw [show (i.id == iid) = false from beq_eq_false_iff_ne.mpr hc]
      exact ih

theorem mem_updateQty {items : List StockItem} {tid nq : Int} {j : StockItem}
    (hj : j ∈ updateQty items tid nq) :
    ∃ i ∈ items, j = updAt tid nq i := by
  rcases List.mem_map.mp hj with ⟨i, hi, hij⟩
  exact ⟨i, hi, hij.symm⟩

theorem updateQty_mem {items : List StockItem} {tid nq : Int} {i : StockItem}
    (hi : i ∈ items) : updAt tid nq i ∈ updateQty items tid nq :=
  List.mem_map.mpr ⟨i, hi, rfl⟩


/-! Success-shape lemmas: a handler returns ok exactly when every guard
passes, and then the new state is the applyLedger (or insert) update. -/

theorem add_item_ok {s : State} {n : String} {q ml : Int} {up : Money} {sup : String}
    {rq : Int} {s' : State} {m : String} :
    add_item s n q ml up sup rq = .ok (s', m) ↔
      (¬ pyStrip n = "" ∧ ¬ (q < 0 ∨ ml < 0 ∨ Money.isNegB up = true ∨ rq < 0) ∧
       { s with
          items := s.items ++ [newStockItem s (pyStrip n) q ml up (pyStrip sup) rq],
          nextItemId := s.nextItemId + 1 } = s' ∧
       addItemMessage = m) := by
  simp only [add_item]
  split
  case isTrue h => simp [h]
  case isFalse h =>
    split
    case isTrue h2 => simp [h, h2]
    case isFalse h2 => simp [h, h2]

theorem checkout_ok {s : State} {iid qty : Int} {job : String} {s' : State}
    {r : CheckoutResp} :
    checkout s iid qty job = .ok (s', r) ↔
      ∃ item, findItem s iid = some item ∧
        ¬ (iid ≤ 0 ∨ qty ≤ 0) ∧ ¬ pyStrip job = "" ∧ qty ≤ item.quantity ∧
        applyLedger s iid (item.quantity - qty)
          (ledgerTx s iid (-qty) (some (pyStrip job)) .checkout item.unit_price none) = s' ∧
        ({ new_quantity := item.quantity - qty,
           low_stock_alert := decide (item.quantity - qty ≤ item.min_level),
           unit_price_at_time := item.unit_price,
           line_value := round2 (Money.mulInt qty item.unit_price) } : CheckoutResp) = r := by
  simp only [checkout]
  split
  case isTrue h => simp [h]
  case isFalse h =>
    split
    case isTrue h2 => simp [h, h2]
    case isFalse h2 =>
      split
      case h_1 heq => simp [heq]
      case h_2 item heq =>
        split
        case isTrue h3 => simp [heq, show ¬ qty ≤ item.quantity from not_le.mpr h3]
        case isFalse h3 => simp [heq, h, h2, not_lt.mp h3]

theorem receive_ok {s : State} {iid qty : Int} {s' : State} {r : ReceiveResp} :
    receive s iid qty = .ok (s', r) ↔
      ∃ item, findItem s iid = some item ∧ ¬ (iid ≤ 0 ∨ qty ≤ 0) ∧
        applyLedger s iid (item.quantity + qty)
          (ledgerTx s iid qty none .receive item.unit_price none) = s' ∧
        ({ new_quantity := item.quantity + qty,
           unit_price_at_time := item.unit_price } : ReceiveResp) = r := by
  simp only [receive]
  split
  case isTrue h => simp [h]
  case isFalse h =>
    split
    case h_1 heq => simp [heq]
    case h_2 item heq => simp [heq, h]

theorem reverse_ok {s : State} {tid : Int} {s' : State} {r : ReverseResp} :
    reverse_transaction s tid = .ok (s', r) ↔
      ∃ tx item, findTx s tid = some tx ∧ findItem s tx.item_id = some item ∧
        ¬ tid ≤ 0 ∧ ¬ tx.action = Action.reverse ∧
        (∀ t ∈ s.transactions, t.action = Action.reverse → ¬ t.reversed_from = some tid) ∧
        tx.change_qty ≤ item.quantity ∧
        applyLedger s tx.item_id (item.quantity + -tx.change_qty)
          (ledgerTx s tx.item_id (-tx.change_qty) tx.job_no .reverse tx.unit_price
            (some tid)) = s' ∧
        ({ item_id := tx.item_id, new_quantity := item.quantity + -tx.change_qty,
           reversed_from := tid } : ReverseResp) = r := by
  simp only [reverse_transaction]
  split
  case isTrue h => simp [h]
  case isFalse h =>
    split
    case h_1 heq => simp [heq]
    case h_2 tx heq =>
      split
      case isTrue h2 => simp [heq, h2]
      case isFalse h2 =>
        split
        case isTrue h3 =>
          constructor
          · intro hok
            exact absurd hok (by simp)
          · rintro ⟨tx', item', htx', _, _, _, hall, _⟩
            rw [heq] at htx'
            injection htx' with e
            subst e
            rcases List.any_eq_true.mp h3 with ⟨t, ht, hcond⟩
            simp only [Bool.and_eq_true, beq_iff_eq] at hcond
            exact absurd hcond.2 (hall t ht hcond.1)
        case isFalse h3 =>
          have h3' : ∀ t ∈ s.transactions,
              t.action = Action.reverse → ¬ t.reversed_from = some tid := by
            intro t ht hact hrev
            refine h3 (List.any_eq_true.mpr ⟨t, ht, ?_⟩)
            simp [hact, hrev]
          split
          case h_1 heq2 => simp [heq, heq2]
          case h_2 item heq2 =>
            split
            case isTrue h4 =>
              simp [heq, heq2, show ¬ tx.change_qty ≤ item.quantity from by omega]
            case isFalse h4 =>
              simp [heq, heq2, h, h2, show tx.change_qty ≤ item.quantity from by omega]
              exact fun _ _ => h3'

/-! Invariant preservation: every successful operation preserves Inv, so
every reachable state satisfies it. -/

theorem findItem_mem {s : State} {iid : Int} {item : StockItem}
    (h : findItem s iid = some item) : item ∈ s.items :=
  List.mem_of_find?_eq_some h

theorem findItem_id {s : State} {iid : Int} {item : StockItem}
    (h : findItem s iid = some item) : item.id = iid := by
  unfold findItem at h
  have h2 := List.find?_some h
  simpa using h2

theorem findTx_mem {s : State} {tid : Int} {tx : Transaction}
    (h : findTx s tid = some tx) : tx ∈ s.transactions :=
  List.mem_of_find?_eq_some h

theorem findTx_id {s : State} {tid : Int} {tx : Transaction}
    (h : findTx s tid = some tx) : tx.id = tid := by
  unfold findTx at h
  have h2 := List.find?_some h
  simpa using h2

theorem pairwise_ne_unique {l : List StockItem}
    (h : l.Pairwise (fun a b => a.id ≠ b.id)) :
    ∀ {i j : StockItem}, i ∈ l → j ∈ l → i.id = j.id → i = j := by
  induction l with
  | nil => intro i j hi _ _; exact absurd hi (List.not_mem_nil i)
  | cons a l ih =>
    rcases List.pairwise_cons.mp h with ⟨ha, hl⟩
    intro i j hi hj hij
    rcases List.mem_cons.mp hi with hi1 | hi1
    · rcases List.mem_cons.mp hj with hj1 | hj1
      · rw [hi1, hj1]
      · rw [hi1] at hij
        rw [hi1]
        exact absurd hij (ha j hj1)
    · rcases List.mem_cons.mp hj with hj1 | hj1
      · rw [hj1] at hij
        rw [hj1]
        exact absurd hij.symm (ha i hi1)
      · exact ih hl hi1 hj1 hij

theorem inv_applyLedger {s : State} (h : Inv s) {item : StockItem} {iid nq dq : Int}
    {job : Option String} {act : Action} {up : Money} {rfrom : Option Int}
    (hfind : findItem s iid = some item)
    (hnq : 0 ≤ nq) (hdelta : nq = item.quantity + dq)
    (hrfrom : ∀ rid, rfrom = some rid → rid < s.nextTxId) :
    Inv (applyLedger s iid nq (ledgerTx s iid dq job act up rfrom)) := by
  have hmem := findItem_mem hfind
  have hid := findItem_id hfind
  constructor
  · intro j hj
    rcases mem_updateQty hj with ⟨i, hi, rfl⟩
    unfold updAt
    split
    · exact hnq
    · exact h.qty_nonneg i hi
  · intro j hj
    rcases mem_updateQty hj with ⟨i, hi, rfl⟩
    rw [updAt_id]
    exact h.item_id_pos i hi
  · intro j hj
    rcases mem_updateQty hj with ⟨i, hi, rfl⟩
    rw [updAt_id]
    exact h.item_id_lt i hi
  · show (updateQty s.items iid nq).Pairwise _
    unfold updateQty
    rw [List.pairwise_map]
    exact List.Pairwise.imp
      (fun hab => by rw [updAt_id, updAt_id]; exact hab) h.item_ids_nodup
  · intro t ht
    rcases List.mem_append.mp ht with ht | ht
    · exact h.tx_id_pos t ht
    · rw [List.mem_singleton.mp ht]
      show (0 : Int) < s.nextTxId
      have := h.one_le_nextTxId
      omega
  · intro t ht
    show t.id < s.nextTxId + 1
    rcases List.mem_append.mp ht with ht | ht
    · have := h.tx_id_lt t ht
      omega
    · rw [List.mem_singleton.mp ht]
      show s.nextTxId < s.nextTxId + 1
      omega
  · intro t ht
    rcases List.mem_append.mp ht with ht | ht
    · rcases h.tx_item_exists t ht with ⟨i, hi, hiid⟩
      exact ⟨updAt iid nq i, updateQty_mem hi, by rw [updAt_id]; exact hiid⟩
    · rw [List.mem_singleton.mp ht]
      exact ⟨updAt iid nq item, updateQty_mem hmem, by rw [updAt_id]; exact hid⟩
  · intro t ht rid hr
    show rid < s.nextTxId + 1
    rcases List.mem_append.mp ht with ht | ht
    · have := h.rev_lt t ht rid hr
      omega
    · rw [List.mem_singleton.mp ht] at hr
      have := hrfrom rid hr
      omega
  · intro j hj
    rcases mem_updateQty hj with ⟨i, hi, rfl⟩
    show (updAt iid nq i).quantity = (updAt iid nq i).createdQty +
      (((s.transactions ++ [ledgerTx s iid dq job act up rfrom]).filter
        (fun t => t.item_id == (updAt iid nq i).id)).map (fun t => t.change_qty)).sum
    simp only [updAt_id, List.filter_append, List.map_append, List.sum_append]
    by_cases hc : i.id = iid
    · obtain rfl : i = item :=
        pairwise_ne_unique h.item_ids_nodup hi hmem (hc.trans hid.symm)
      have hfil : List.filter (fun t => t.item_id == i.id)
          [ledgerTx s iid dq job act up rfrom] = [ledgerTx s iid dq job act up rfrom] := by
        simp [ledgerTx, hc]
      rw [hfil]
      have hled := h.ledger i hi
      unfold updAt
      rw [if_pos hc]
      show nq = i.createdQty + _
      simp only [ledgerTx, List.map_cons, List.map_nil, List.sum_cons, List.sum_nil]
      omega
    · have hfil : List.filter (fun t => t.item_id == i.id)
          [ledgerTx s iid dq job act up rfrom] = [] := by
        simp [ledgerTx]
        exact fun hiid2 => absurd hiid2.symm hc
      rw [hfil]
      have hled := h.ledger i hi
      unfold updAt
      rw [if_neg hc]
      simpa using hled
  · exact h.one_le_nextItemId
  · show 1 ≤ s.nextTxId + 1
    have := h.one_le_nextTxId
    omega

theorem inv_empty : Inv State.empty := by
  constructor <;> simp [State.empty]

theorem inv_add_item {s s' : State} {n : String} {q ml : Int} {up : Money}
    {sup : String} {rq : Int} {m : String} (h : Inv s)
    (hok : add_item s n q ml up sup rq = .ok (s', m)) : Inv s' := by
  rcases add_item_ok.mp hok with ⟨hn, hneg, hs', hm⟩
  subst hs'
  have hq : 0 ≤ q := by
    by_contra hq
    exact hneg (Or.inl (by omega))
  constructor
  · intro i hi
    rcases List.mem_append.mp hi with hi | hi
    · exact h.qty_nonneg i hi
    · rw [List.mem_singleton.mp hi]
      exact hq
  · intro i hi
    rcases List.mem_append.mp hi with hi | hi
    · exact h.item_id_pos i hi
    · rw [List.mem_singleton.mp hi]
      show (0 : Int) < s.nextItemId
      have := h.one_le_nextItemId
      omega
  · intro i hi
    show i.id < s.nextItemId + 1
    rcases List.mem_append.mp hi with hi | hi
    · have := h.item_id_lt i hi
      omega
    · rw [List.mem_singleton.mp hi]
      show s.nextItemId < s.nextItemId + 1
      omega
  · rw [List.pairwise_append]
    refine ⟨h.item_ids_nodup, List.pairwise_singleton _ _, ?_⟩
    intro a ha b hb
    rw [List.mem_singleton.mp hb]
    have := h.item_id_lt a ha
    show a.id ≠ s.nextItemId
    omega
  · exact h.tx_id_pos
  · exact h.tx_id_lt
  · intro t ht
    rcases h.tx_item_exists t ht with ⟨i, hi, hiid⟩
    exact ⟨i, List.mem_append_left _ hi, hiid⟩
  · exact h.rev_lt
  · intro i hi
    rcases List.mem_append.mp hi with hi | hi
    · exact h.ledger i hi
    · rw [List.mem_singleton.mp hi]
      have hfil : s.transactions.filter
          (fun t => t.item_id == (newStockItem s (pyStrip n) q ml up (pyStrip sup) rq).id)
          = [] := by
        rw [List.filter_eq_nil_iff]
        intro t ht
        rcases h.tx_item_exists t ht with ⟨i2, hi2, hiid2⟩
        have := h.item_id_lt i2 hi2
        show ¬ (t.item_id == s.nextItemId) = true
        rw [beq_iff_eq]
        omega
      rw [hfil]
      simp [newStockItem]
  · show 1 ≤ s.nextItemId + 1
    have := h.one_le_nextItemId
    omega
  · exact h.one_le_nextTxId

theorem inv_checkout {s s' : State} {iid qty : Int} {job : String} {r : CheckoutResp}
    (h : Inv s) (hok : checkout s iid qty job = .ok (s', r)) : Inv s' := by
  rcases checkout_ok.mp hok with ⟨item, hfind, _, _, hq, hs', _⟩
  subst hs'
  have h0 : 0 ≤ item.quantity - qty := by omega
  exact inv_applyLedger h hfind h0 (by omega) (by simp)

theorem inv_receive {s s' : State} {iid qty : Int} {r : ReceiveResp}
    (h : Inv s) (hok : receive s iid qty = .ok (s', r)) : Inv s' := by
  rcases receive_ok.mp hok with ⟨item, hfind, hg, hs', _⟩
  subst hs'
  have h1 := h.qty_nonneg item (findItem_mem hfind)
  have h0 : 0 ≤ item.quantity + qty := by omega
  exact inv_applyLedger h hfind h0 (by omega) (by simp)

theorem inv_reverse {s s' : State} {tid : Int} {r : ReverseResp}
    (h : Inv s) (hok : reverse_transaction s tid = .ok (s', r)) : Inv s' := by
  rcases reverse_ok.mp hok with ⟨tx, item, htx, hfind, _, _, _, hle, hs', _⟩
  subst hs'
  have h0 : 0 ≤ item.quantity + -tx.change_qty := by omega
  refine inv_applyLedger h hfind h0 (by omega) ?_
  intro rid hr
  rw [Option.some.injEq] at hr
  subst hr
  rw [← findTx_id htx]
  exact h.tx_id_lt tx (findTx_mem htx)

theorem reachable_inv {s : State} (h : Reachable s) : Inv s := by
  induction h with
  | empty => exact inv_empty
  | create _ hok ih => exact inv_add_item ih hok
  | checkoutStep _ hok ih => exact inv_checkout ih hok
  | receiveStep _ hok ih => exact inv_receive ih hok
  | reverseStep _ hok ih => exact inv_reverse ih hok

/-! Reachability of the concrete runs, and lookup over applyLedger. -/

theorem reachable_witS1 : Reachable witS1 :=
  Reachable.create Reachable.empty
    (show add_item State.empty "Widget" 10 2 (Money.ofInt 5) "ACME" 3
        = .ok (witS1, addItemMessage) by decide)

theorem reachable_witS2 : Reachable witS2 :=
  Reachable.checkoutStep reachable_witS1
    (show checkout witS1 1 4 "J1" = .ok (witS2,
        { new_quantity := 6, low_stock_alert := false,
          unit_price_at_time := Money.ofInt 5, line_value := ⟨2000, 100⟩ }) by decide)

theorem reachable_witS3 : Reachable witS3 :=
  Reachable.reverseStep reachable_witS2
    (show reverse_transaction witS2 1 = .ok (witS3,
        { item_id := 1, new_quantity := 10, reversed_from := 1 }) by decide)

theorem findItem_applyLedger (s : State) (iid nq : Int) (tx : Transaction) (iid2 : Int) :
    findItem (applyLedger s iid nq tx) iid2 = (findItem s iid2).map (updAt iid nq) :=
  find?_updateQty s.items iid nq iid2

/-! Claim theorems. -/

/-- C1: in every reachable state every stock item's quantity is nonnegative,
and a checkout or reversal whose effect would make some quantity negative is
rejected with an error (the embedding returns no state on an error, so a
rejected operation mutates nothing). -/
theorem C1_nonneg_invariant (s : State) (hs : Reachable s) :
    (∀ i ∈ s.items, 0 ≤ i.quantity) ∧
    (∀ iid qty job item, findItem s iid = some item → item.quantity < qty →
      ∃ e, checkout s iid qty job = .error e) ∧
    (∀ tid tx item, findTx s tid = some tx → findItem s tx.item_id = some item →
      item.quantity - tx.change_qty < 0 → ∃ e, reverse_transaction s tid = .error e) := by
  have hinv := reachable_inv hs
  refine ⟨hinv.qty_nonneg, ?_, ?_⟩
  · intro iid qty job item hfind hlt
    cases hres : checkout s iid qty job with
    | error e => exact ⟨e, rfl⟩
    | ok p =>
      exfalso
      obtain ⟨s', r⟩ := p
      rcases checkout_ok.mp hres with ⟨item2, hfind2, _, _, hq, _, _⟩
      rw [hfind] at hfind2
      injection hfind2 with e2
      subst e2
      omega
  · intro tid tx item htx hfind hlt
    cases hres : reverse_transaction s tid with
    | error e => exact ⟨e, rfl⟩
    | ok p =>
      exfalso
      obtain ⟨s', r⟩ := p
      rcases reverse_ok.mp hres with ⟨tx2, item2, htx2, hfind2, _, _, _, hq, _, _⟩
      rw [htx] at htx2
      injection htx2 with e2
      subst e2
      rw [hfind] at hfind2
      injection hfind2 with e3
      subst e3
      omega

/-- Witness for C1 at the concrete reachable database witS2: its single row
has nonnegative quantity, and a checkout of 100 against the 6 in stock is
rejected. -/
theorem C1_nonneg_invariant_witness :
    (∀ i ∈ witS2.items, 0 ≤ i.quantity) ∧
    (∃ e, checkout witS2 1 100 "J9" = .error e) :=
  ⟨(C1_nonneg_invariant witS2 reachable_witS2).1,
   (C1_nonneg_invariant witS2 reachable_witS2).2.1 1 100 "J9"
     { witItem with quantity := 6 } (by decide) (by decide)⟩

/-- C2: in every reachable state every item's quantity equals its creation
quantity plus the sum of change_qty over the transaction rows that
reference it, and each successful checkout, receive and reverse preserves
this by appending exactly one matching row and moving the quantity by that
row's change_qty. -/
theorem C2_ledger_equation (s : State) (hs : Reachable s) :
    (∀ i ∈ s.items, i.quantity = i.createdQty +
        ((s.transactions.filter (fun t => t.item_id == i.id)).map
          (fun t => t.change_qty)).sum) ∧
    (∀ iid qty job s' r, checkout s iid qty job = .ok (s', r) →
      ∃ tx, s'.transactions = s.transactions ++ [tx] ∧ tx.item_id = iid ∧
        tx.change_qty = -qty ∧
        itemQty s' iid = (itemQty s iid).map (fun q => q + tx.change_qty)) ∧
    (∀ iid qty s' r, receive s iid qty = .ok (s', r) →
      ∃ tx, s'.transactions = s.transactions ++ [tx] ∧ tx.item_id = iid ∧
        tx.change_qty = qty ∧
        itemQty s' iid = (itemQty s iid).map (fun q => q + tx.change_qty)) ∧
    (∀ tid s' r, reverse_transaction s tid = .ok (s', r) →
      ∃ tx0 rv, findTx s tid = some tx0 ∧
        s'.transactions = s.transactions ++ [rv] ∧ rv.item_id = tx0.item_id ∧
        rv.change_qty = -tx0.change_qty ∧
        itemQty s' tx0.item_id = (itemQty s tx0.item_id).map
          (fun q => q + rv.change_qty)) := by
  have hinv := reachable_inv hs
  refine ⟨hinv.ledger, ?_, ?_, ?_⟩
  · intro iid qty job s' r hok
    rcases checkout_ok.mp hok with ⟨item, hfind, _, _, _, hs', _⟩
    subst hs'
    refine ⟨ledgerTx s iid (-qty) (some (pyStrip job)) .checkout item.unit_price none,
      rfl, rfl, rfl, ?_⟩
    unfold itemQty
    rw [findItem_applyLedger, hfind]
    show some ((updAt iid (item.quantity - qty) item).quantity) = _
    unfold updAt
    rw [if_pos (findItem_id hfind)]
    simp [ledgerTx, sub_eq_add_neg]
  · intro iid qty s' r hok
    rcases receive_ok.mp hok with ⟨item, hfind, _, hs', _⟩
    subst hs'
    refine ⟨ledgerTx s iid qty none .receive item.unit_price none, rfl, rfl, rfl, ?_⟩
    unfold itemQty
    rw [findItem_applyLedger, hfind]
    show some ((updAt iid (item.quantity + qty) item).quantity) = _
    unfold updAt
    rw [if_pos (findItem_id hfind)]
    rfl
  · intro tid s' r hok
    rcases reverse_ok.mp hok with ⟨tx, item, htx, hfind, _, _, _, _, hs', _⟩
    subst hs'
    refine ⟨tx, ledgerTx s tx.item_id (-tx.change_qty) tx.job_no .reverse tx.unit_price
      (some tid), htx, rfl, rfl, rfl, ?_⟩
    unfold itemQty
    rw [findItem_applyLedger, hfind]
    show some ((updAt tx.item_id (item.quantity + -tx.change_qty) item).quantity) = _
    unfold updAt
    rw [if_pos (findItem_id hfind)]
    rfl

/-- Witness for C2 at witS2: the concrete row's quantity 6 equals its
creation quantity 10 plus the summed change_qty of its single checkout
row. -/
theorem C2_ledger_equation_witness :
    ({ witItem with quantity := 6 } : StockItem).quantity =
      ({ witItem with quantity := 6 } : StockItem).createdQty +
      ((witS2.transactions.filter
          (fun t => t.item_id == ({ witItem with quantity := 6 } : StockItem).id)).map
        (fun t => t.change_qty)).sum :=
  (C2_ledger_equation witS2 reachable_witS2).1 { witItem with quantity := 6 } (by decide)

theorem findTx_applyLedger_new {s : State} (h : Inv s) (iid nq : Int) {tx : Transaction}
    (htx : tx.id = s.nextTxId) :
    findTx (applyLedger s iid nq tx) s.nextTxId = some tx := by
  show (s.transactions ++ [tx]).find? (fun t => t.id == s.nextTxId) = some tx
  rw [List.find?_append]
  have h1 : s.transactions.find? (fun t => t.id == s.nextTxId) = none := by
    rw [List.find?_eq_none]
    intro t ht
    have := h.tx_id_lt t ht
    simp only [beq_iff_eq]
    omega
  rw [h1]
  simp [List.find?, htx]

/-- C5: a successful checkout immediately followed by a successful reversal
of the transaction it appended restores the item's quantity exactly, and
the same holds for receive; the reverse row's change_qty is exactly the
negation of its target's change_qty (qty for a checkout of qty, -qty for a
receive of qty). -/
theorem C5_round_trip (s : State) (hs : Reachable s) :
    (∀ iid qty job s₁ r₁, checkout s iid qty job = .ok (s₁, r₁) →
      ∃ s₂ r₂ rv, reverse_transaction s₁ s.nextTxId = .ok (s₂, r₂) ∧
        s₂.transactions = s₁.transactions ++ [rv] ∧ rv.change_qty = qty ∧
        itemQty s₂ iid = itemQty s iid) ∧
    (∀ iid qty s₁ r₁, receive s iid qty = .ok (s₁, r₁) →
      ∃ s₂ r₂ rv, reverse_transaction s₁ s.nextTxId = .ok (s₂, r₂) ∧
        s₂.transactions = s₁.transactions ++ [rv] ∧ rv.change_qty = -qty ∧
        itemQty s₂ iid = itemQty s iid) := by
  have hinv := reachable_inv hs
  constructor
  · intro iid qty job s₁ r₁ hok
    rcases checkout_ok.mp hok with ⟨item, hfind, _, _, _, hs₁, _⟩
    have hq0 := hinv.qty_nonneg item (findItem_mem hfind)
    have hid := findItem_id hfind
    subst hs₁
    have hupd : updAt iid (item.quantity - qty) item =
        { item with quantity := item.quantity - qty } := by
      unfold updAt
      rw [if_pos hid]
    have hfind2 : findItem (applyLedger s iid (item.quantity - qty)
        (ledgerTx s iid (-qty) (some (pyStrip job)) .checkout item.unit_price none)) iid =
        some { item with quantity := item.quantity - qty } := by
      rw [findItem_applyLedger, hfind]
      simp [hupd]
    have hrev := reverse_ok.mpr
      ⟨ledgerTx s iid (-qty) (some (pyStrip job)) .checkout item.unit_price none,
       { item with quantity := item.quantity - qty },
       findTx_applyLedger_new hinv iid (item.quantity - qty) rfl,
       hfind2,
       (by have := hinv.one_le_nextTxId; omega),
       (by simp [ledgerTx]),
       ?hall,
       (by show -qty ≤ item.quantity - qty; omega),
       rfl, rfl⟩
    case hall =>
      intro t ht hact hrf
      rcases List.mem_append.mp ht with ht | ht
      · have := hinv.rev_lt t ht s.nextTxId hrf
        omega
      · rw [List.mem_singleton.mp ht] at hrf
        exact Option.noConfusion hrf
    refine ⟨_, _, _, hrev, rfl, neg_neg qty, ?_⟩
    unfold itemQty
    rw [findItem_applyLedger]
    rw [show (ledgerTx s iid (-qty) (some (pyStrip job)) Action.checkout item.unit_price
        none).item_id = iid from rfl]
    rw [hfind2, hfind]
    show some ((updAt iid _ { item with quantity := item.quantity - qty }).quantity) = _
    unfold updAt
    rw [if_pos (show ({ item with quantity := item.quantity - qty } :
      StockItem).id = iid from hid)]
    show some (item.quantity - qty + - -qty) = some item.quantity
    congr 1
    omega
  · intro iid qty s₁ r₁ hok
    rcases receive_ok.mp hok with ⟨item, hfind, _, hs₁, _⟩
    have hq0 := hinv.qty_nonneg item (findItem_mem hfind)
    have hid := findItem_id hfind
    subst hs₁
    have hupd : updAt iid (item.quantity + qty) item =
        { item with quantity := item.quantity + qty } := by
      unfold updAt
      rw [if_pos hid]
    have hfind2 : findItem (applyLedger s iid (item.quantity + qty)
        (ledgerTx s iid qty none .receive item.unit_price none)) iid =
        some { item with quantity := item.quantity + qty } := by
      rw [findItem_applyLedger, hfind]
      simp [hupd]
    have hrev := reverse_ok.mpr
      ⟨ledgerTx s iid qty none .receive item.unit_price none,
       { item with quantity := item.quantity + qty },
       findTx_applyLedger_new hinv iid (item.quantity + qty) rfl,
       hfind2,
       (by have := hinv.one_le_nextTxId; omega),
       (by simp [ledgerTx]),
       ?hall2,
       (by show qty ≤ item.quantity + qty; omega),
       rfl, rfl⟩
    case hall2 =>
      intro t ht hact hrf
      rcases List.mem_append.mp ht with ht | ht
      · have := hinv.rev_lt t ht s.nextTxId hrf
        omega
      · rw [List.mem_singleton.mp ht] at hrf
        exact Option.noConfusion hrf
    refine ⟨_, _, _, hrev, rfl, rfl, ?_⟩
    unfold itemQty
    rw [findItem_applyLedger]
    rw [show (ledgerTx s iid qty none Action.receive item.unit_price
        none).item_id = iid from rfl]
    rw [hfind2, hfind]
    show some ((updAt iid _ { item with quantity := item.quantity + qty }).quantity) = _
    unfold updAt
    rw [if_pos (show ({ item with quantity := item.quantity + qty } :
      StockItem).id = iid from hid)]
    show some (item.quantity + qty + -qty) = some item.quantity
    congr 1
    omega

/-- Witness for C5: on the concrete database witS1 (one item, quantity 10),
checkout(1, 4, J1) reaches witS2 and reversing the appended transaction id
1 succeeds and restores quantity 10. -/
theorem C5_round_trip_witness :
    ∃ s₂ r₂ rv, reverse_transaction witS2 witS1.nextTxId = .ok (s₂, r₂) ∧
      s₂.transactions = witS2.transactions ++ [rv] ∧ rv.change_qty = 4 ∧
      itemQty s₂ 1 = itemQty witS1 1 :=
  (C5_round_trip witS1 reachable_witS1).1 1 4 "J1" witS2
    { new_quantity := 6, low_stock_alert := false,
      unit_price_at_time := Money.ofInt 5, line_value := ⟨2000, 100⟩ }
    (by decide)

/-- C6: in every state, a successful checkout or receive writes the item's
current unit_price into the appended transaction row and into the response
(snapshot at execution time), and a successful reverse copies the reversed
transaction's unit_price verbatim into the appended reverse row, never
re-reading the item's current price; hence the reverse row carries the
original snapshot even in a history where the stored price was changed
between the two operations. -/
theorem C6_price_snapshot :
    (∀ s iid qty job s' r, checkout s iid qty job = .ok (s', r) →
      ∃ item tx, findItem s iid = some item ∧ s'.transactions = s.transactions ++ [tx] ∧
        tx.unit_price = item.unit_price ∧ r.unit_price_at_time = item.unit_price) ∧
    (∀ s iid qty s' r, receive s iid qty = .ok (s', r) →
      ∃ item tx, findItem s iid = some item ∧ s'.transactions = s.transactions ++ [tx] ∧
        tx.unit_price = item.unit_price ∧ r.unit_price_at_time = item.unit_price) ∧
    (∀ s tid s' r, reverse_transaction s tid = .ok (s', r) →
      ∃ tx0 rv, findTx s tid = some tx0 ∧ s'.transactions = s.transactions ++ [rv] ∧
        rv.unit_price = tx0.unit_price) := by
  refine ⟨?_, ?_, ?_⟩
  · intro s iid qty job s' r hok
    rcases checkout_ok.mp hok with ⟨item, hfind, _, _, _, hs', hr⟩
    subst hs'
    subst hr
    exact ⟨item, _, hfind, rfl, rfl, rfl⟩
  · intro s iid qty s' r hok
    rcases receive_ok.mp hok with ⟨item, hfind, _, hs', hr⟩
    subst hs'
    subst hr
    exact ⟨item, _, hfind, rfl, rfl, rfl⟩
  · intro s tid s' r hok
    rcases reverse_ok.mp hok with ⟨tx, item, htx, _, _, _, _, _, hs', _⟩
    subst hs'
    exact ⟨tx, _, htx, rfl, rfl⟩

/-- Witness for C6: the concrete reversal witS2 to witS3 copies price 5 from
the reversed checkout row. -/
theorem C6_price_snapshot_witness :
    ∃ tx0 rv, findTx witS2 1 = some tx0 ∧
      witS3.transactions = witS2.transactions ++ [rv] ∧
      rv.unit_price = tx0.unit_price :=
  C6_price_snapshot.2.2 witS2 1 witS3
    { item_id := 1, new_quantity := 10, reversed_from := 1 } (by decide)

theorem frame_applyLedger (s : State) (iid nq : Int) (tx : Transaction) :
    Frame s (applyLedger s iid nq tx) iid := by
  refine ⟨?_, ?_, ⟨tx, rfl⟩⟩
  · show (s.items.map (updAt iid nq)).length = s.items.length
    exact List.length_map _ _
  show List.Forall₂ _ s.items (s.items.map (updAt iid nq))
  rw [List.forall₂_map_right_iff, List.forall₂_same]
  intro i _
  unfold updAt
  split
  case isTrue hc => exact ⟨rfl, rfl, rfl, rfl, rfl, rfl, rfl, fun hne => absurd hc hne⟩
  case isFalse hc => exact ⟨rfl, rfl, rfl, rfl, rfl, rfl, rfl, fun _ => rfl⟩

/-- C10: every successful checkout, receive or reverse changes only the
target item's quantity (all other fields and all other items are unchanged,
pointwise in order, and no item is deleted), leaves every existing
transaction row untouched and appends exactly one new row. -/
theorem C10_frame :
    (∀ s iid qty job s' r, checkout s iid qty job = .ok (s', r) → Frame s s' iid) ∧
    (∀ s iid qty s' r, receive s iid qty = .ok (s', r) → Frame s s' iid) ∧
    (∀ s tid s' r, reverse_transaction s tid = .ok (s', r) →
      ∃ tx, findTx s tid = some tx ∧ Frame s s' tx.item_id) := by
  refine ⟨?_, ?_, ?_⟩
  · intro s iid qty job s' r hok
    rcases checkout_ok.mp hok with ⟨item, _, _, _, _, hs', _⟩
    subst hs'
    exact frame_applyLedger s iid _ _
  · intro s iid qty s' r hok
    rcases receive_ok.mp hok with ⟨item, _, _, hs', _⟩
    subst hs'
    exact frame_applyLedger s iid _ _
  · intro s tid s' r hok
    rcases reverse_ok.mp hok with ⟨tx, item, htx, _, _, _, _, _, hs', _⟩
    subst hs'
    exact ⟨tx, htx, frame_applyLedger s tx.item_id _ _⟩

/-- Witness for C10: the concrete checkout witS1 to witS2 satisfies the
frame condition on item 1. -/
theorem C10_frame_witness : Frame witS1 witS2 1 :=
  C10_frame.1 witS1 1 4 "J1" witS2
    { new_quantity := 6, low_stock_alert := false,
      unit_price_at_time := Money.ofInt 5, line_value := ⟨2000, 100⟩ }
    (by decide)

/-- C7 (amended): checkout fails with InvalidInput exactly when item_id is
nonpositive, qty is nonpositive, or job_no strips to the empty string; past
those guards it fails with NotFound exactly when no item has that id; past
that it fails with InsufficientStock exactly when qty exceeds the available
quantity; otherwise (in particular when qty equals the available quantity)
it succeeds, setting quantity to quantity - qty, appending the checkout row
with change_qty = -qty, and returning new_quantity, low_stock_alert =
(new_quantity <= min_level), unit_price_at_time and line_value =
round(qty * unit_price, 2). -/
theorem C7_checkout_contract (s : State) (iid qty : Int) (job : String) :
    (checkout s iid qty job = .error ApiError.invalidInput ↔
      (iid ≤ 0 ∨ qty ≤ 0 ∨ pyStrip job = "")) ∧
    (¬ (iid ≤ 0 ∨ qty ≤ 0 ∨ pyStrip job = "") →
      (checkout s iid qty job = .error ApiError.notFound ↔ findItem s iid = none)) ∧
    (∀ item, ¬ (iid ≤ 0 ∨ qty ≤ 0 ∨ pyStrip job = "") → findItem s iid = some item →
      ((checkout s iid qty job = .error ApiError.insufficientStock ↔
          item.quantity < qty) ∧
       (qty ≤ item.quantity →
         checkout s iid qty job = .ok
           (applyLedger s iid (item.quantity - qty)
             (ledgerTx s iid (-qty) (some (pyStrip job)) .checkout item.unit_price none),
            { new_quantity := item.quantity - qty,
              low_stock_alert := decide (item.quantity - qty ≤ item.min_level),
              unit_price_at_time := item.unit_price,
              line_value := round2 (Money.mulInt qty item.unit_price) })))) := by
  refine ⟨?_, ?_, ?_⟩
  · constructor
    · intro h
      by_contra hg
      push_neg at hg
      obtain ⟨hg1, hg2, hg3⟩ := hg
      simp only [checkout, if_neg (show ¬ (iid ≤ 0 ∨ qty ≤ 0) by omega),
        if_neg hg3] at h
      cases hfind : findItem s iid with
      | none =>
        rw [hfind] at h
        exact absurd h (by simp)
      | some item =>
        rw [hfind] at h
        refine absurd h ?_
        split
        case h_1 heq => exact Option.noConfusion heq
        case h_2 item2 heq => split <;> simp
    · intro hg
      simp only [checkout]
      by_cases h1 : iid ≤ 0 ∨ qty ≤ 0
      · rw [if_pos h1]
      · rw [if_neg h1, if_pos (show pyStrip job = "" by tauto)]
  · intro hg
    have h1 : ¬ (iid ≤ 0 ∨ qty ≤ 0) := by tauto
    have h3 : ¬ pyStrip job = "" := by tauto
    simp only [checkout, if_neg h1, if_neg h3]
    cases hfind : findItem s iid with
    | none => simp
    | some item =>
      split
      case h_1 heq => exact Option.noConfusion heq
      case h_2 item2 heq =>
        injection heq with e
        subst e
        split
        · simp
        · simp
  · intro item hg hfind
    have h1 : ¬ (iid ≤ 0 ∨ qty ≤ 0) := by tauto
    have h3 : ¬ pyStrip job = "" := by tauto
    simp only [checkout, if_neg h1, if_neg h3, hfind]
    constructor
    · split
      case isTrue hlt => simp [hlt]
      case isFalse hlt => simp [hlt]
    · intro hle
      rw [if_neg (not_lt.mpr hle)]

/-- Witness for C7: the boundary checkout of exactly the available quantity
10 on witS1 succeeds, leaving quantity 0 and raising the low-stock alert. -/
theorem C7_checkout_contract_witness :
    checkout witS1 1 10 "J2" = .ok
      (applyLedger witS1 1 (witItem.quantity - 10)
        (ledgerTx witS1 1 (-10) (some (pyStrip "J2")) .checkout witItem.unit_price none),
       { new_quantity := witItem.quantity - 10,
         low_stock_alert := decide (witItem.quantity - 10 ≤ witItem.min_level),
         unit_price_at_time := witItem.unit_price,
         line_value := round2 (Money.mulInt 10 witItem.unit_price) }) :=
  ((C7_checkout_contract witS1 1 10 "J2").2.2 witItem (by decide) (by decide)).2 (by decide)

/-- Counterexample to C7 as stated: no item has id 0, yet checkout(0, 1, J)
fails with InvalidInput rather than NotFound (the claim allows InvalidInput
only for qty <= 0 or empty job_no); and the whitespace job_no " ", which is
not the empty string, is also rejected with InvalidInput. -/
theorem C7_claim_counterexample :
    findItem State.empty 0 = none ∧
    checkout State.empty 0 1 "J" = .error ApiError.invalidInput ∧
    ApiError.invalidInput ≠ ApiError.notFound ∧
    checkout witS1 1 1 " " = .error ApiError.invalidInput ∧ " " ≠ "" := by
  decide

/-- C9 (amended): create fails with InvalidInput exactly when the name
strips to the empty string or any numeric field is negative; on success it
inserts one item carrying a fresh id different from every existing item's
id, and the success response is the fixed confirmation message (the created
id is not part of the response). -/
theorem C9_create_contract (s : State) (hs : Reachable s) (n : String) (q ml : Int)
    (up : Money) (sup : String) (rq : Int) :
    (add_item s n q ml up sup rq = .error ApiError.invalidInput ↔
      (pyStrip n = "" ∨ q < 0 ∨ ml < 0 ∨ Money.isNegB up = true ∨ rq < 0)) ∧
    (∀ s' m, add_item s n q ml up sup rq = .ok (s', m) →
      m = addItemMessage ∧
      ∃ item, item ∈ s'.items ∧ item.id = s.nextItemId ∧
        (∀ i ∈ s.items, i.id ≠ item.id) ∧
        findItem s' item.id = some item) := by
  have hinv := reachable_inv hs
  constructor
  · simp only [add_item]
    split
    case isTrue h => simp [h]
    case isFalse h =>
      split
      case isTrue h2 => simp [h, h2]
      case isFalse h2 => simp [h, h2]
  · intro s' m hok
    rcases add_item_ok.mp hok with ⟨hn, hneg, hs', hm⟩
    subst hs'
    subst hm
    refine ⟨rfl, newStockItem s (pyStrip n) q ml up (pyStrip sup) rq, ?_, rfl, ?_, ?_⟩
    · exact List.mem_append_right _ (List.mem_singleton.mpr rfl)
    · intro i hi
      have := hinv.item_id_lt i hi
      show i.id ≠ s.nextItemId
      omega
    · show (s.items ++ [newStockItem s (pyStrip n) q ml up (pyStrip sup) rq]).find?
        (fun i => i.id == (newStockItem s (pyStrip n) q ml up (pyStrip sup) rq).id)
        = some (newStockItem s (pyStrip n) q ml up (pyStrip sup) rq)
      rw [List.find?_append]
      have hnone : s.items.find?
          (fun i => i.id == (newStockItem s (pyStrip n) q ml up (pyStrip sup) rq).id)
          = none := by
        rw [List.find?_eq_none]
        intro i hi
        have := hinv.item_id_lt i hi
        simp only [beq_iff_eq]
        show ¬ i.id = s.nextItemId
        omega
      rw [hnone]
      simp [List.find?, newStockItem]

/-- Witness for C9: the rejection iff evaluated at the concrete run
create(Gadget, -1, 0, 2) on witS1, whose quantity -1 makes it
InvalidInput. -/
theorem C9_create_contract_witness :
    add_item witS1 "Gadget" (-1) 0 (Money.ofInt 2) "" 0 = .error ApiError.invalidInput ↔
      (pyStrip "Gadget" = "" ∨ (-1 : Int) < 0 ∨ (0 : Int) < 0 ∨
        Money.isNegB (Money.ofInt 2) = true ∨ (0 : Int) < 0) :=
  (C9_create_contract witS1 reachable_witS1 "Gadget" (-1) 0 (Money.ofInt 2) "" 0).1

/-- Counterexample to C9 as stated: the whitespace-only name " " is not the
empty string, yet create rejects it with InvalidInput; and two successful
creations return the identical fixed response while assigning the distinct
ids 1 and 2, so the success result does not carry the created item id. -/
theorem C9_claim_counterexample :
    (add_item State.empty " " 0 0 (Money.ofInt 0) "" 0 = .error ApiError.invalidInput ∧
      " " ≠ "") ∧
    (add_item State.empty "A" 0 0 (Money.ofInt 0) "" 0 = .ok (cxSA, addItemMessage) ∧
     add_item cxSA "B" 0 0 (Money.ofInt 0) "" 0 = .ok (cxSB, addItemMessage) ∧
     cxSA.items.map (fun i => i.id) = [1] ∧
     cxSB.items.map (fun i => i.id) = [1, 2]) := by
  decide

/-- C4 (amended): reverse fails with InvalidInput when transaction_id is
nonpositive (such an id never names a transaction); for positive ids it
fails with NotFound exactly when no transaction has that id; given the
transaction, it fails with InvalidReversal exactly when the target is
itself a reverse row, some row already has reversed_from = transaction_id,
or applying the negated change_qty would make the quantity negative; in a
reachable state InvalidInput, NotFound and InvalidReversal are the only
failure kinds; and reversing the same transaction twice succeeds once and
fails the second time with InvalidReversal.  Failures return no state, so
they leave stock and log unchanged by construction. -/
theorem C4_reverse_errors (s : State) (hs : Reachable s) (tid : Int) :
    (tid ≤ 0 → reverse_transaction s tid = .error ApiError.invalidInput) ∧
    (0 < tid → (reverse_transaction s tid = .error ApiError.notFound ↔
      findTx s tid = none)) ∧
    (∀ tx, 0 < tid → findTx s tid = some tx →
      (reverse_transaction s tid = .error ApiError.invalidReversal ↔
        (tx.action = Action.reverse ∨
         (∃ t ∈ s.transactions, t.action = Action.reverse ∧
            t.reversed_from = some tid) ∨
         (∃ item, findItem s tx.item_id = some item ∧
            item.quantity - tx.change_qty < 0)))) ∧
    (∀ e, reverse_transaction s tid = .error e →
      e = ApiError.invalidInput ∨ e = ApiError.notFound ∨ e = ApiError.invalidReversal) ∧
    (∀ s' r, reverse_transaction s tid = .ok (s', r) →
      reverse_transaction s' tid = .error ApiError.invalidReversal) := by
  have hinv := reachable_inv hs
  refine ⟨?_, ?_, ?_, ?_, ?_⟩
  · intro h
    simp only [reverse_transaction]
    rw [if_pos h]
  · intro hpos
    simp only [reverse_transaction, if_neg (not_le.mpr hpos)]
    cases hf : findTx s tid with
    | none => simp
    | some tx =>
      constructor
      · intro h
        exfalso
        split at h
        case h_1 heq => exact Option.noConfusion heq
        case h_2 tx2 heq =>
          split at h
          case isTrue => exact absurd h (by simp)
          case isFalse h2 =>
            split at h
            case isTrue => exact absurd h (by simp)
            case isFalse h3 =>
              split at h
              case h_1 => exact absurd h (by simp)
              case h_2 item heq2 =>
                split at h
                case isTrue => exact absurd h (by simp)
                case isFalse => exact absurd h (by simp)
      · intro h
        exact Option.noConfusion h
  · intro tx hpos htx
    simp only [reverse_transaction, if_neg (not_le.mpr hpos), htx]
    split
    case isTrue h2 => simp [h2]
    case isFalse h2 =>
      split
      case isTrue h3 =>
        rcases List.any_eq_true.mp h3 with ⟨t, ht, hcond⟩
        simp only [Bool.and_eq_true, beq_iff_eq] at hcond
        constructor
        · intro _
          exact Or.inr (Or.inl ⟨t, ht, hcond.1, hcond.2⟩)
        · intro _
          rfl
      case isFalse h3 =>
        have h3' : ∀ t ∈ s.transactions,
            t.action = Action.reverse → ¬ t.reversed_from = some tid := by
          intro t ht hact hrev
          refine h3 (List.any_eq_true.mpr ⟨t, ht, ?_⟩)
          simp [hact, hrev]
        split
        case h_1 heq2 =>
          constructor
          · intro h
            exact absurd h (by simp)
          · rintro (h4 | ⟨t, ht, hact, hrev⟩ | ⟨item, hit, _⟩)
            · exact absurd h4 h2
            · exact absurd hrev (h3' t ht hact)
            · rw [heq2] at hit
              exact Option.noConfusion hit
        case h_2 item heq2 =>
          split
          case isTrue h4 =>
            constructor
            · intro _
              exact Or.inr (Or.inr ⟨item, heq2, by omega⟩)
            · intro _
              rfl
          case isFalse h4 =>
            constructor
            · intro h
              exact absurd h (by simp)
            · rintro (h5 | ⟨t, ht, hact, hrev⟩ | ⟨item2, hit2, hlt⟩)
              · exact absurd h5 h2
              · exact absurd hrev (h3' t ht hact)
              · exfalso
                rw [heq2] at hit2
                injection hit2 with e
                subst e
                omega
  · intro e he
    simp only [reverse_transaction] at he
    split at he
    case isTrue =>
      injection he with h
      exact Or.inl h.symm
    case isFalse h1 =>
      split at he
      case h_1 =>
        injection he with h
        exact Or.inr (Or.inl h.symm)
      case h_2 tx htx =>
        split at he
        case isTrue =>
          injection he with h
          exact Or.inr (Or.inr h.symm)
        case isFalse h2 =>
          split at he
          case isTrue =>
            injection he with h
            exact Or.inr (Or.inr h.symm)
          case isFalse h3 =>
            split at he
            case h_1 heq2 =>
              exfalso
              rcases hinv.tx_item_exists tx (findTx_mem htx) with ⟨i, hi, hiid⟩
              have hsome : (findItem s tx.item_id).isSome := by
                unfold findItem
                rw [List.find?_isSome]
                exact ⟨i, hi, by simp [hiid]⟩
              rw [heq2] at hsome
              exact Bool.noConfusion hsome
            case h_2 item heq2 =>
              split at he
              case isTrue =>
                injection he with h
                exact Or.inr (Or.inr h.symm)
              case isFalse => exact absurd he (by simp)
  · intro s' r hok
    rcases reverse_ok.mp hok with ⟨tx, item, htx, hfind, htid, hact, hall, hle, hs', _⟩
    subst hs'
    have hf2 : findTx (applyLedger s tx.item_id (item.quantity + -tx.change_qty)
        (ledgerTx s tx.item_id (-tx.change_qty) tx.job_no .reverse tx.unit_price
          (some tid))) tid = some tx := by
      show (s.transactions ++ [_]).find? (fun t => t.id == tid) = some tx
      rw [List.find?_append]
      rw [show s.transactions.find? (fun t => t.id == tid) = some tx from htx]
      rfl
    simp only [reverse_transaction, if_neg htid, hf2, if_neg hact]
    have hany : ((applyLedger s tx.item_id (item.quantity + -tx.change_qty)
        (ledgerTx s tx.item_id (-tx.change_qty) tx.job_no .reverse tx.unit_price
          (some tid))).transactions.any
        (fun t => t.action == Action.reverse && t.reversed_from == some tid)) = true := by
      show ((s.transactions ++ [_]).any _) = true
      rw [List.any_append]
      refine Bool.or_eq_true_iff.mpr (Or.inr ?_)
      simp [ledgerTx]
    rw [if_pos hany]

/-- Witness for C4: reversing transaction 1 a second time, on the concrete
database witS3 produced by its first reversal, fails with
InvalidReversal. -/
theorem C4_reverse_errors_witness :
    reverse_transaction witS3 1 = .error ApiError.invalidReversal :=
  (C4_reverse_errors witS2 reachable_witS2 1).2.2.2.2 witS3
    { item_id := 1, new_quantity := 10, reversed_from := 1 } (by decide)

/-- Counterexample to C4 as stated: no transaction has id 0, yet reverse(0)
fails with InvalidInput, not NotFound, so NotFound does not occur exactly
when the id is absent and InvalidInput is a third failure kind of
reverse. -/
theorem C4_claim_counterexample :
    findTx witS1 0 = none ∧
    reverse_transaction witS1 0 = .error ApiError.invalidInput ∧
    ApiError.invalidInput ≠ ApiError.notFound := by
  decide

/-! Lemmas about the _job_usage aggregation. -/

theorem mem_usageKeys {s : State} {job : String} {iid : Int} {nm : String} {up : Money} :
    (iid, nm, up) ∈ usageKeys s job ↔
      ∃ t ∈ s.transactions, txMatches job t = true ∧ t.item_id = iid ∧
        t.unit_price = up ∧ ∃ i, findItem s iid = some i ∧ i.name = nm := by
  unfold usageKeys
  rw [List.mem_dedup, List.mem_filterMap]
  constructor
  · rintro ⟨t, ht, hmap⟩
    rcases List.mem_filter.mp ht with ⟨ht, hmatch⟩
    cases hfi : findItem s t.item_id with
    | none =>
      rw [hfi] at hmap
      exact Option.noConfusion hmap
    | some i =>
      rw [hfi] at hmap
      injection hmap with e
      rw [Prod.mk.injEq, Prod.mk.injEq] at e
      obtain ⟨e1, e2, e3⟩ := e
      subst e1
      subst e3
      exact ⟨t, ht, hmatch, rfl, rfl, i, hfi, e2⟩
  · rintro ⟨t, ht, hmatch, rfl, rfl, i, hfi, rfl⟩
    refine ⟨t, List.mem_filter.mpr ⟨ht, hmatch⟩, ?_⟩
    rw [hfi]
    rfl

theorem usageKeys_name {s : State} {job : String} {k : Int × String × Money}
    (hk : k ∈ usageKeys s job) : ∃ i, findItem s k.1 = some i ∧ k.2.1 = i.name := by
  obtain ⟨iid, nm, up⟩ := k
  rcases mem_usageKeys.mp hk with ⟨t, _, _, _, _, i, hfi, hn⟩
  exact ⟨i, hfi, hn.symm⟩

theorem jobUsageRows_sorted (s : State) (job : String) :
    (jobUsageRows s job).Pairwise (fun a b => strLe a.name b.name = true) := by
  unfold jobUsageRows
  rw [List.pairwise_map]
  exact (pairwise_sortLe keyLe_total keyLe_trans (usageKeys s job)).imp (fun hab => hab)

theorem jobUsageRows_keys_nodup (s : State) (job : String) :
    (jobUsageRows s job).Pairwise
      (fun a b => a.item_id ≠ b.item_id ∨ a.unit_price ≠ b.unit_price) := by
  unfold jobUsageRows
  rw [List.pairwise_map]
  have hnd : (sortLe keyLe (usageKeys s job)).Nodup :=
    ((perm_sortLe keyLe (usageKeys s job)).nodup_iff).mpr (List.nodup_dedup _)
  refine hnd.imp_of_mem ?_
  intro a b ha hb hne
  have ha2 : a ∈ usageKeys s job := (perm_sortLe keyLe _).mem_iff.mp ha
  have hb2 : b ∈ usageKeys s job := (perm_sortLe keyLe _).mem_iff.mp hb
  show (mkRow s job a).item_id ≠ (mkRow s job b).item_id ∨
    (mkRow s job a).unit_price ≠ (mkRow s job b).unit_price
  by_contra hc
  push_neg at hc
  obtain ⟨h1, h2⟩ := hc
  rcases usageKeys_name ha2 with ⟨ia, hfa, hna⟩
  rcases usageKeys_name hb2 with ⟨ib, hfb, hnb⟩
  have h1' : a.1 = b.1 := h1
  have h2' : a.2.2 = b.2.2 := h2
  rw [h1'] at hfa
  rw [hfa] at hfb
  injection hfb with e
  subst e
  apply hne
  obtain ⟨a1, a2, a3⟩ := a
  obtain ⟨b1, b2, b3⟩ := b
  simp only at h1' h2' hna hnb
  rw [Prod.mk.injEq, Prod.mk.injEq]
  exact ⟨h1', hna.trans hnb.symm, h2'⟩

theorem exists_row_of_matching {s : State} {job : String} {t : Transaction}
    (hitems : ∀ t2 ∈ s.transactions, ∃ i ∈ s.items, i.id = t2.item_id)
    (ht : t ∈ s.transactions) (hm : txMatches job t = true) :
    ∃ r ∈ jobUsageRows s job, r.item_id = t.item_id ∧ r.unit_price = t.unit_price := by
  rcases hitems t ht with ⟨i, hi, hiid⟩
  have hsome : (findItem s t.item_id).isSome := by
    unfold findItem
    rw [List.find?_isSome]
    exact ⟨i, hi, by simp [hiid]⟩
  rcases Option.isSome_iff_exists.mp hsome with ⟨i2, hfi⟩
  have hk : (t.item_id, i2.name, t.unit_price) ∈ usageKeys s job :=
    mem_usageKeys.mpr ⟨t, ht, hm, rfl, rfl, i2, hfi, rfl⟩
  have hk2 : (t.item_id, i2.name, t.unit_price) ∈ sortLe keyLe (usageKeys s job) :=
    (perm_sortLe keyLe _).mem_iff.mpr hk
  exact ⟨mkRow s job (t.item_id, i2.name, t.unit_price),
    List.mem_map.mpr ⟨_, hk2, rfl⟩, rfl, rfl⟩

theorem matching_of_row {s : State} {job : String} {r : UsageRow}
    (hr : r ∈ jobUsageRows s job) :
    ∃ t ∈ s.transactions, txMatches job t = true ∧ t.item_id = r.item_id ∧
      t.unit_price = r.unit_price := by
  rcases List.mem_map.mp hr with ⟨k, hk, rfl⟩
  have hk2 : k ∈ usageKeys s job := (perm_sortLe keyLe _).mem_iff.mp hk
  obtain ⟨iid, nm, up⟩ := k
  rcases mem_usageKeys.mp hk2 with ⟨t, ht, hm, h1, h2, _⟩
  exact ⟨t, ht, hm, h1, h2⟩

theorem jobUsageRows_eq_nil_iff {s : State} {job : String}
    (hitems : ∀ t ∈ s.transactions, ∃ i ∈ s.items, i.id = t.item_id) :
    jobUsageRows s job = [] ↔ ∀ t ∈ s.transactions, txMatches job t = false := by
  constructor
  · intro h t ht
    rw [← Bool.not_eq_true]
    intro hm
    rcases exists_row_of_matching hitems ht hm with ⟨r, hr, _⟩
    rw [h] at hr
    exact absurd hr (List.not_mem_nil r)
  · intro h
    unfold jobUsageRows usageKeys
    rw [show s.transactions.filter (txMatches job) = [] from
      List.filter_eq_nil_iff.mpr (fun t ht => by simp [h t ht])]
    rfl

/-- C3: job usage over the embedded _job_usage: rows are grouped by the
(item_id, unit_price) pair of the selected checkout and reverse
transactions of the job (so the same item at two historical prices yields
two distinct rows), each row carries net_qty = -(sum of change_qty of its
group) and line_total = round(net_qty * unit_price, 2), the grand total is
round(sum of line totals, 2), and rows are sorted by item name ascending
(byte order, sqlite's BINARY collation).  The foreign-key hypothesis
states that every transaction references an existing stock row, which the
schema enforces. -/
theorem C3_job_usage (s : State) (job : String)
    (hitems : ∀ t ∈ s.transactions, ∃ i ∈ s.items, i.id = t.item_id) :
    ((jobUsagePair s job).1).Pairwise (fun a b => strLe a.name b.name = true) ∧
    (jobUsagePair s job).2 =
      round2 (Money.sum (((jobUsagePair s job).1).map (fun r => r.line_total))) ∧
    (∀ r ∈ (jobUsagePair s job).1,
      r.net_qty = -((((s.transactions.filter (txMatches job)).filter
          (fun t => t.item_id == r.item_id && t.unit_price == r.unit_price)).map
          (fun t => t.change_qty)).sum) ∧
      r.line_total = round2 (Money.mulInt r.net_qty r.unit_price)) ∧
    (∀ iid up,
      (∃ t ∈ s.transactions, txMatches job t = true ∧ t.item_id = iid ∧
        t.unit_price = up) ↔
      (∃ r ∈ (jobUsagePair s job).1, r.item_id = iid ∧ r.unit_price = up)) ∧
    ((jobUsagePair s job).1).Pairwise
      (fun a b => a.item_id ≠ b.item_id ∨ a.unit_price ≠ b.unit_price) := by
  refine ⟨jobUsageRows_sorted s job, rfl, ?_, ?_, jobUsageRows_keys_nodup s job⟩
  · intro r hr
    rcases List.mem_map.mp hr with ⟨k, hk, rfl⟩
    exact ⟨rfl, rfl⟩
  · intro iid up
    constructor
    · rintro ⟨t, ht, hm, h1, h2⟩
      subst h1
      subst h2
      exact exists_row_of_matching hitems ht hm
    · rintro ⟨r, hr, h1, h2⟩
      subst h1
      subst h2
      rcases matching_of_row hr with ⟨t, ht, hm, h1, h2⟩
      exact ⟨t, ht, hm, h1, h2⟩

/-- Witness for C3 at witS2: the concrete total of job J1 equals the
rounded sum of its line totals. -/
theorem C3_job_usage_witness :
    (jobUsagePair witS2 "J1").2 =
      round2 (Money.sum (((jobUsagePair witS2 "J1").1).map (fun r => r.line_total))) :=
  (C3_job_usage witS2 "J1" (by decide)).2.1

/-- C8 (amended): for a job_no that strips to nonempty text, usage fails
with NotFound exactly when zero checkout or reverse transaction rows match
it; whenever at least one row matches, usage succeeds and the matching
row's (item_id, unit_price) group appears in the report even when its net
quantity is 0 (groups are never filtered by net value).  A job_no that
strips to the empty string is rejected with InvalidInput before the
NotFound check. -/
theorem C8_usage_notfound (s : State) (job : String)
    (hitems : ∀ t ∈ s.transactions, ∃ i ∈ s.items, i.id = t.item_id) :
    (pyStrip job = "" → job_usage s job = .error ApiError.invalidInput) ∧
    (pyStrip job ≠ "" →
      (job_usage s job = .error ApiError.notFound ↔
        ∀ t ∈ s.transactions, txMatches (pyStrip job) t = false)) ∧
    (pyStrip job ≠ "" → ∀ t ∈ s.transactions, txMatches (pyStrip job) t = true →
      ∃ u, job_usage s job = .ok u ∧
        ∃ r ∈ u.items, r.item_id = t.item_id ∧ r.unit_price = t.unit_price) := by
  refine ⟨?_, ?_, ?_⟩
  · intro h
    simp only [job_usage]
    rw [if_pos h]
  · intro hne
    simp only [job_usage]
    rw [if_neg hne]
    by_cases hE : (jobUsageRows s (pyStrip job)).isEmpty = true
    · rw [if_pos hE]
      constructor
      · intro _
        exact (jobUsageRows_eq_nil_iff hitems).mp (List.isEmpty_iff.mp hE)
      · intro _
        rfl
    · rw [if_neg hE]
      constructor
      · intro h
        exact absurd h (by simp)
      · intro hall
        exact absurd (List.isEmpty_iff.mpr ((jobUsageRows_eq_nil_iff hitems).mpr hall)) hE
  · intro hne t ht hm
    rcases exists_row_of_matching hitems ht hm with ⟨r, hr, h1, h2⟩
    have hE : ¬ (jobUsageRows s (pyStrip job)).isEmpty = true := by
      intro hE
      rw [List.isEmpty_iff.mp hE] at hr
      exact absurd hr (List.not_mem_nil r)
    refine ⟨⟨pyStrip job, jobUsageRows s (pyStrip job), jobUsageTotal s (pyStrip job)⟩,
      ?_, r, hr, h1, h2⟩
    simp only [job_usage]
    rw [if_neg hne, if_neg hE]

/-- Witness for C8 at witS2: job " J1 " strips to J1, which has one
matching checkout row, so usage succeeds with a row for (item 1,
price 5). -/
theorem C8_usage_notfound_witness :
    ∃ u, job_usage witS2 " J1 " = .ok u ∧
      ∃ r ∈ u.items, r.item_id = witT1.item_id ∧ r.unit_price = witT1.unit_price :=
  (C8_usage_notfound witS2 " J1 " (by decide)).2.2 (by decide) witT1 (by decide)
    (by decide)

/-- Counterexample to C8 as stated: in the fresh database zero transaction
rows match the job_no " ", yet usage(" ") fails with InvalidInput, not
NotFound, so failing with NotFound is not equivalent to matching zero
rows. -/
theorem C8_claim_counterexample :
    State.empty.transactions = [] ∧
    job_usage State.empty " " = .error ApiError.invalidInput ∧
    ApiError.invalidInput ≠ ApiError.notFound := by
  decide

end Topcar
